import Mathlib

/-!
Verification of the markdown rendering component of this repository
(`src/components/pages/BlogDetail.tsx`, functions `renderContent` and
`renderInlineMarkdown`).  Strings are modelled as `List Char`; the
JavaScript regular expressions used by the source are embedded as
specialised matching functions with the exact backtracking semantics of
the patterns involved (`\s` and `String.prototype.trim` are modelled
over the full ECMAScript WhiteSpace and LineTerminator sets, `.` over
the complement of the ECMAScript LineTerminator set).
-/

set_option maxRecDepth 10000

/-- Whitespace class of the JavaScript `\s` and `String.prototype.trim`:
the ECMAScript WhiteSpace and LineTerminator sets, i.e. TAB, LF, VT, FF,
CR, SP, NBSP, U+1680, U+2000 to U+200A, LS U+2028, PS U+2029, U+202F,
U+205F, U+3000 and ZWNBSP U+FEFF. -/
def isWs (c : Char) : Bool :=
  let n := c.toNat
  n == 0x20 || n == 0x09 || n == 0x0a || n == 0x0b || n == 0x0c || n == 0x0d ||
    n == 0xa0 || n == 0x1680 || (0x2000 ≤ n && n ≤ 0x200a) ||
    n == 0x2028 || n == 0x2029 || n == 0x202f || n == 0x205f ||
    n == 0x3000 || n == 0xfeff

/-- Character class of the JavaScript `.` without the `s` flag: any
character except an ECMAScript LineTerminator (LF, CR, LS U+2028,
PS U+2029). -/
def isDot (c : Char) : Bool :=
  let n := c.toNat
  !(n == 0x0a || n == 0x0d || n == 0x2028 || n == 0x2029)

/-- The backtick character, written via its code point. -/
def btick : Char := Char.ofNat 96

/-- Left trim: drop leading whitespace. -/
def ltrim (l : List Char) : List Char := l.dropWhile isWs

/-- Right trim: drop trailing whitespace. -/
def rtrim (l : List Char) : List Char := (l.reverse.dropWhile isWs).reverse

/-- JavaScript `String.prototype.trim` on a character list. -/
def trimList (l : List Char) : List Char := rtrim (ltrim l)

/-- Index of the last newline character of a list, if any. -/
def lastNl : List Char → Option Nat
  | [] => none
  | c :: rest =>
    match lastNl rest with
    | some q => some (q + 1)
    | none => if c == '\n' then some 0 else none

/-- Length of the match of the separator regex `\n\s*\n` at the head of the
list, if it matches there: a newline, then (greedily, with backtracking)
a whitespace run ending at the last newline inside the maximal whitespace
run that follows. -/
def sepAt : List Char → Option Nat
  | [] => none
  | c :: rest =>
    if c == '\n' then
      (lastNl (rest.takeWhile isWs)).map (fun q => q + 2)
    else none

/-- Position and length of the leftmost match of `\n\s*\n`, if any. -/
def findSep : List Char → Option (Nat × Nat)
  | [] => none
  | c :: rest =>
    match sepAt (c :: rest) with
    | some L => some (0, L)
    | none => (findSep rest).map (fun p => (p.1 + 1, p.2))

/-- Fuel-driven worker for `content.split(/\n\s*\n/)`. -/
def splitBlankF : Nat → List Char → List (List Char)
  | 0, s => [s]
  | fuel + 1, s =>
    match findSep s with
    | none => [s]
    | some (i, L) => s.take i :: splitBlankF fuel (s.drop (i + L))

/-- The document split `content.split(/\n\s*\n/)` of the source, line 57. -/
def splitBlank (s : List Char) : List (List Char) := splitBlankF s.length s

/-- JavaScript `String.prototype.split('\n')` on a character list. -/
def splitLines : List Char → List (List Char)
  | [] => [[]]
  | c :: rest =>
    if c == '\n' then [] :: splitLines rest
    else
      match splitLines rest with
      | l :: ls => (c :: l) :: ls
      | [] => [[c]]

/-- Backtracking search for the split of `\s+` versus `(.+)$`: the
whitespace run is given back one character at a time (longest first,
i.e. greedy) until the remainder is a nonempty newline-free suffix. -/
def searchSplit : List Char → List Char → Option (List Char)
  | [], _ => none
  | c :: wRev, r =>
    if !r.isEmpty && r.all isDot then some r
    else searchSplit wRev (c :: r)

/-- Match of the heading regex `^(#+)\s+(.+)$` (source, line 65) against a
whole string: the leading run of `#`, then at least one whitespace
character (`\s` may match newlines), then a nonempty newline-free tail
reaching the end of the string.  Returns the number of `#` and the
heading text. -/
def headingMatch (t : List Char) : Option (Nat × List Char) :=
  let hs := t.takeWhile (fun x => x == '#')
  if hs.isEmpty then none
  else
    match searchSplit ((t.drop hs.length).takeWhile isWs).reverse
        ((t.drop hs.length).dropWhile isWs) with
    | some r => some (hs.length, r)
    | none => none

/-- Unordered-list markers `-`, `*`, `+`. -/
def isUlMarker (c : Char) : Bool :=
  c == '-' || c == '*' || c == '+'

/-- Test of the regex `^[-*+]\s` (source, lines 83 and 84). -/
def ulStart : List Char → Bool
  | a :: b :: _ => isUlMarker a && isWs b
  | _ => false

/-- JavaScript `line.replace(/^[-*+]\s+/, '')` (source, line 88): if the
line starts with a marker followed by whitespace, the marker and the
maximal whitespace run after it are removed; otherwise the line is kept. -/
def stripUl (line : List Char) : List Char :=
  match line with
  | [] => []
  | m :: rest =>
    if isUlMarker m && (match rest with
        | c :: _ => isWs c
        | [] => false) then
      rest.dropWhile isWs
    else line

/-- Test of the regex `^\d+\.\s` (source, lines 100 and 101). -/
def olStart (t : List Char) : Bool :=
  let ds := t.takeWhile (fun c => c.isDigit)
  !ds.isEmpty &&
    (match t.drop ds.length with
     | '.' :: c :: _ => isWs c
     | _ => false)

/-- JavaScript `item.replace(/^\d+\.\s+/, '')` (source, line 105). -/
def stripOl (line : List Char) : List Char :=
  let ds := line.takeWhile (fun c => c.isDigit)
  if ds.isEmpty then line
  else
    match line.drop ds.length with
    | '.' :: c :: rest =>
      if isWs c then (c :: rest).dropWhile isWs else line
    | _ => line

/-- A classified block, before inline rendering: the output of the block
classifier part of `renderContent`. -/
inductive RawBlock
  | heading (lvl : Nat) (text : List Char)
  | ulist (items : List (List Char))
  | olist (items : List (List Char))
  | para (text : List Char)
deriving DecidableEq, Repr

/-- Whether a raw block is a paragraph. -/
def RawBlock.isPara : RawBlock → Bool
  | .para _ => true
  | _ => false

/-- Whether a raw block is a heading. -/
def RawBlock.isHeading : RawBlock → Bool
  | .heading _ _ => true
  | _ => false

/-- Heading level of a raw block, if it is a heading. -/
def RawBlock.headingLevel? : RawBlock → Option Nat
  | .heading n _ => some n
  | _ => none

/-- Items of `<ul>` (source, line 84): the lines of the candidate whose
trimmed text matches `^[-*+]\s`, each with `^[-*+]\s+` removed. -/
def ulItems (t : List Char) : List (List Char) :=
  ((splitLines t).filter (fun l => ulStart (trimList l))).map stripUl

/-- Items of `<ol>` (source, line 101). -/
def olItems (t : List Char) : List (List Char) :=
  ((splitLines t).filter (fun l => olStart (trimList l))).map stripOl

/-- Classification of one trimmed candidate paragraph (source, lines
60-121): empty candidates yield nothing (React null); a candidate whose
first character is `#` and which matches the heading regex yields a
heading with level clamped to 3; else a candidate matching `^[-*+]\s`
yields an unordered list; else `^\d+\.\s` yields an ordered list; else a
paragraph holding the trimmed text. -/
def classifyPara (t : List Char) : Option RawBlock :=
  if t.isEmpty then none
  else
    match (if t.head? = some '#' then headingMatch t else none) with
    | some p => some (RawBlock.heading (min p.1 3) p.2)
    | none =>
      if ulStart t then some (RawBlock.ulist (ulItems t))
      else if olStart t then some (RawBlock.olist (olItems t))
      else some (RawBlock.para t)

/-- The block classifier of `renderContent`: split on blank lines, trim
each candidate, classify, and drop the null renderings of empty
candidates. -/
def classify (content : List Char) : List RawBlock :=
  (splitBlank content).filterMap (fun p => classifyPara (trimList p))

/-- Kind of an inline pattern match. -/
inductive MKind
  | bold
  | italic
  | link
  | code
deriving DecidableEq, Repr

/-- An element of the `allMatches` array of `renderInlineMarkdown`
(source, line 140): start index, matched length, kind, captured content
and, for links, the URL. -/
structure IMatch where
  index : Nat
  mlength : Nat
  kind : MKind
  content : List Char
  url : List Char
deriving DecidableEq, Repr

/-- A pattern match attempt at the head of the remaining text: matched
length, kind, content, URL. -/
structure MHit where
  hlen : Nat
  kind : MKind
  content : List Char
  url : List Char
deriving DecidableEq, Repr

/-- Whether a list starts with two copies of the delimiter. -/
def startsWith2 (d : Char) : List Char → Bool
  | a :: b :: _ => a == d && b == d
  | _ => false

/-- Lazy search of `(.+?)` up to a two-character closing delimiter: the
shortest nonempty newline-free prefix followed by the delimiter pair. -/
def findClose2 (d : Char) : List Char → Option (List Char)
  | [] => none
  | c :: rest =>
    if isDot c then
      if startsWith2 d rest then some [c]
      else (findClose2 d rest).map (fun l => c :: l)
    else none

/-- Lazy search of `(.+?)` up to a one-character closing delimiter. -/
def findClose1 (d : Char) : List Char → Option (List Char)
  | [] => none
  | c :: rest =>
    if isDot c then
      if rest.head? == some d then some [c]
      else (findClose1 d rest).map (fun l => c :: l)
    else none

/-- Attempt of one alternative of the bold pattern `(\*\*|__)(.+?)\1`
(source, line 131) at the head of the text. -/
def delim2At (d : Char) (s : List Char) : Option MHit :=
  match s with
  | a :: b :: rest =>
    if a == d && b == d then
      (findClose2 d rest).map (fun cont => MHit.mk (cont.length + 4) .bold cont [])
    else none
  | _ => none

/-- Attempt of the bold pattern, alternatives in source order. -/
def boldHit (s : List Char) : Option MHit :=
  match delim2At '*' s with
  | some h => some h
  | none => delim2At '_' s

/-- Attempt of one alternative of the italic pattern `(\*|_)(.+?)\1`
(source, line 133) at the head of the text. -/
def delim1At (d : Char) (s : List Char) : Option MHit :=
  match s with
  | a :: rest =>
    if a == d then
      (findClose1 d rest).map (fun cont => MHit.mk (cont.length + 2) .italic cont [])
    else none
  | [] => none

/-- Attempt of the italic pattern, alternatives in source order. -/
def italicHit (s : List Char) : Option MHit :=
  match delim1At '*' s with
  | some h => some h
  | none => delim1At '_' s

/-- Attempt of the link pattern `\[([^\]]+)\]\(([^)]+)\)` (source,
line 135) at the head of the text.  Both character classes are the
complements of their closing delimiter, so the greedy runs are forced. -/
def linkHit (s : List Char) : Option MHit :=
  match s with
  | '[' :: rest =>
    let txt := rest.takeWhile (fun c => c != ']')
    if txt.isEmpty then none
    else
      match rest.dropWhile (fun c => c != ']') with
      | ']' :: '(' :: rest2 =>
        let url := rest2.takeWhile (fun c => c != ')')
        if url.isEmpty then none
        else
          match rest2.dropWhile (fun c => c != ')') with
          | ')' :: _ => some (MHit.mk (txt.length + url.length + 4) .link txt url)
          | _ => none
      | _ => none
  | _ => none

/-- Attempt of the inline-code pattern matching a backtick, a nonempty
run of non-backtick characters, and a closing backtick (source, line
137) at the head of the text. -/
def codeHit (s : List Char) : Option MHit :=
  match s with
  | [] => none
  | c :: rest =>
    if c == btick then
      let inner := rest.takeWhile (fun x => x != btick)
      if inner.isEmpty then none
      else
        match rest.dropWhile (fun x => x != btick) with
        | d :: _ => if d == btick then some (MHit.mk (inner.length + 2) .code inner []) else none
        | [] => none
    else none

/-- Fuel-driven global-regex scan loop (the `while ((match = p.exec(text)))`
loops of the source, lines 143-154): at each position try the pattern;
on a match record it and resume after the matched text, otherwise
advance one character. -/
def scanAllF (attempt : List Char → Option MHit) : Nat → Nat → List Char → List IMatch
  | 0, _, _ => []
  | fuel + 1, pos, s =>
    match s with
    | [] => []
    | c :: rest =>
      match attempt (c :: rest) with
      | some h =>
        IMatch.mk pos h.hlen h.kind h.content h.url ::
          scanAllF attempt fuel (pos + h.hlen) ((c :: rest).drop h.hlen)
      | none => scanAllF attempt fuel (pos + 1) rest

/-- All matches of one pattern over the text, in ascending position. -/
def scanP (attempt : List Char → Option MHit) (s : List Char) : List IMatch :=
  scanAllF attempt (s.length + 1) 0 s

/-- The pooled `allMatches` array before sorting, in the push order of the
source: bold, italic, link, code. -/
def allMatches (text : List Char) : List IMatch :=
  scanP boldHit text ++ scanP italicHit text ++ scanP linkHit text ++ scanP codeHit text

/-- Stable insertion of a match into a list sorted by start index. -/
def insertM (a : IMatch) : List IMatch → List IMatch
  | [] => [a]
  | b :: l => if a.index ≤ b.index then a :: b :: l else b :: insertM a l

/-- Stable sort by start index, the `allMatches.sort((a, b) => a.index -
b.index)` of the source, line 157. -/
def sortMatches : List IMatch → List IMatch
  | [] => []
  | a :: l => insertM a (sortMatches l)

/-- An inline span of the rendered output. -/
inductive InlineSpan
  | plain (text : List Char)
  | bold (content : List Char)
  | italic (content : List Char)
  | link (content url : List Char)
  | code (content : List Char)
deriving DecidableEq, Repr

/-- Whether a span is one of the four formatted kinds (not plain text). -/
def isFormatted : InlineSpan → Bool
  | .plain _ => false
  | _ => true

/-- The formatted element pushed for a match (source, lines 167-194). -/
def toSpan (m : IMatch) : InlineSpan :=
  match m.kind with
  | .bold => .bold m.content
  | .italic => .italic m.content
  | .link => .link m.content m.url
  | .code => .code m.content

/-- The parts-building walk of the source, lines 160-202: for each match
in sorted order, push the plain text strictly between the cursor and the
match start (only when the match starts after the cursor), push the
formatted span, and move the cursor to the end of the match; finally
push any remaining text. -/
def buildParts (text : List Char) : Nat → List IMatch → List InlineSpan
  | cur, [] =>
    if cur < text.length then [InlineSpan.plain (text.drop cur)] else []
  | cur, m :: ms =>
    (if cur < m.index then [InlineSpan.plain ((text.drop cur).take (m.index - cur))] else [])
      ++ (toSpan m :: buildParts text (m.index + m.mlength) ms)

/-- The inline formatter `renderInlineMarkdown` of the source, lines
126-205.  When the parts array is empty (only possible for empty input)
the source returns the raw text itself, which displays as a single text
node; this is modelled as one plain span. -/
def renderInlineMarkdown (text : List Char) : List InlineSpan :=
  let parts := buildParts text 0 (sortMatches (allMatches text))
  if parts.isEmpty then [InlineSpan.plain text] else parts

/-- A displayable block: a raw block with every piece of text passed
through the inline formatter. -/
inductive Block
  | heading (lvl : Nat) (spans : List InlineSpan)
  | ulist (items : List (List InlineSpan))
  | olist (items : List (List InlineSpan))
  | para (spans : List InlineSpan)
deriving DecidableEq, Repr

/-- Assembly of one displayable block from a raw block (source, lines
74-78, 85-96, 102-113, 117-121). -/
def renderBlock : RawBlock → Block
  | .heading n t => .heading n (renderInlineMarkdown t)
  | .ulist items => .ulist (items.map renderInlineMarkdown)
  | .olist items => .olist (items.map renderInlineMarkdown)
  | .para t => .para (renderInlineMarkdown t)

/-- The whole renderer `renderContent` of the source, lines 55-123. -/
def renderContent (content : List Char) : List Block :=
  (classify content).map renderBlock

/-! ### Helper lemmas about the block splitter and classifier -/

/-- A string without a newline has no blank-line separator. -/
theorem findSep_eq_none (s : List Char) (h : '\n' ∉ s) : findSep s = none := by
  induction s with
  | nil => rfl
  | cons c rest ih =>
    have hc : (c == '\n') = false :=
      beq_eq_false_iff_ne.mpr (fun he => h (he ▸ List.mem_cons_self c rest))
    have hr : findSep rest = none := ih (fun hm => h (List.mem_cons_of_mem c hm))
    simp [findSep, sepAt, hc, hr]

/-- When no separator matches, the blank-line split is a single piece. -/
theorem splitBlank_eq_single (s : List Char) (h : findSep s = none) : splitBlank s = [s] := by
  unfold splitBlank
  cases hl : s.length with
  | zero => rfl
  | succ n => simp [splitBlankF, h]

/-- A nonempty trimmed candidate is always classified as some block. -/
theorem classifyPara_isSome (t : List Char) (h : t ≠ []) : ∃ b, classifyPara t = some b := by
  have h1 : t.isEmpty = false := by
    cases t with
    | nil => exact absurd rfl h
    | cons a l => rfl
  unfold classifyPara
  rw [h1]
  simp only [Bool.false_eq_true, if_false]
  split
  · exact ⟨_, rfl⟩
  · split
    · exact ⟨_, rfl⟩
    · split
      · exact ⟨_, rfl⟩
      · exact ⟨_, rfl⟩

/-! ### C1: the end-to-end scenario of the specification -/

/-- The end-to-end input of the specification. -/
def c1input : List Char := "# Title\n\nSome **bold** and *italic* text.\n\n- a\n- b".data

/-- C1, counterexample: on the end-to-end input the renderer does NOT
produce the paragraph spans claimed by the specification (PlainText
"Some ", Bold "bold", PlainText " and ", Italic "italic", PlainText
" text."): the italic pattern also matches inside the bold marker and
across the surrounding text, so the actual spans differ. -/
theorem c1_counterexample :
    renderContent c1input ≠
      [Block.heading 1 [InlineSpan.plain "Title".data],
       Block.para [InlineSpan.plain "Some ".data, InlineSpan.bold "bold".data,
         InlineSpan.plain " and ".data, InlineSpan.italic "italic".data,
         InlineSpan.plain " text.".data],
       Block.ulist [[InlineSpan.plain "a".data], [InlineSpan.plain "b".data]]] := by
  decide

/-- C1, amended: the end-to-end input yields three blocks in order —
Heading level 1 "Title", a Paragraph whose spans are [PlainText "Some ",
Bold "bold", Italic "*bold", Italic " and ", PlainText "italic* text."],
and an UnorderedList with items ["a", "b"]. -/
theorem c1_amended_theorem :
    renderContent c1input =
      [Block.heading 1 [InlineSpan.plain "Title".data],
       Block.para [InlineSpan.plain "Some ".data, InlineSpan.bold "bold".data,
         InlineSpan.italic "*bold".data, InlineSpan.italic " and ".data,
         InlineSpan.plain "italic* text.".data],
       Block.ulist [[InlineSpan.plain "a".data], [InlineSpan.plain "b".data]]] := by
  decide

/-! ### C2: mixed list candidates -/

/-- C2, counterexample: the candidate "- a\nx" mixes a marker line with a
non-blank non-marker line, yet the classifier produces an UnorderedList
(with the non-marker line silently dropped), not a Paragraph: the code
only tests the first characters of the trimmed candidate. -/
theorem c2_counterexample :
    classify "- a\nx".data = [RawBlock.ulist [['a']]] ∧
      (classify "- a\nx".data).map RawBlock.isPara = [false] := by
  decide

/-- C2, amended: a mixed candidate falls back to a single Paragraph block
holding the whole trimmed candidate text only when its trimmed text does
not itself begin with a list marker, a numbered marker, or a matching
heading pattern; when it does begin with a list marker the non-marker
lines are dropped instead. -/
theorem c2_amended_theorem (c : List Char)
    (hne : trimList c ≠ [])
    (hul : ulStart (trimList c) = false)
    (hol : olStart (trimList c) = false)
    (hhd : (trimList c).head? = some '#' → headingMatch (trimList c) = none)
    (hmix : ∃ l ∈ splitLines (trimList c), ulStart (trimList l) = true) :
    classifyPara (trimList c) = some (RawBlock.para (trimList c)) := by
  have h1 : (trimList c).isEmpty = false := by
    cases h : trimList c with
    | nil => exact absurd h hne
    | cons a l => rfl
  unfold classifyPara
  rw [h1]
  simp only [Bool.false_eq_true, if_false]
  by_cases hh : (trimList c).head? = some '#'
  · rw [if_pos hh, hhd hh]
    simp [hul, hol]
  · rw [if_neg hh]
    simp [hul, hol]

/-- C2, witness for the amended theorem at the candidate "x\n- a". -/
theorem c2_amended_witness :
    classifyPara (trimList "x\n- a".data) = some (RawBlock.para (trimList "x\n- a".data)) :=
  c2_amended_theorem "x\n- a".data (by decide) (by decide) (by decide) (by decide)
    ⟨"- a".data, by decide, by decide⟩

/-! ### C3: the bold example of the specification -/

/-- C3, counterexample: on "**bold**" the inline formatter emits TWO
formatted spans, not exactly one: the italic pattern also matches the
prefix of the bold marker. -/
theorem c3_counterexample :
    ((renderInlineMarkdown "**bold**".data).filter isFormatted).length = 2 := by
  decide

/-- C3, amended: on "**bold**" the inline formatter yields a Bold span
"bold", then an overlapping Italic span "*bold", then a trailing
PlainText "*". -/
theorem c3_amended_theorem :
    renderInlineMarkdown "**bold**".data =
      [InlineSpan.bold "bold".data, InlineSpan.italic "*bold".data,
        InlineSpan.plain "*".data] := by
  decide

/-! ### C5 and C9 and C10 counterexamples, C6, C7 -/

/-- C5, counterexample: the string "# a\nb" begins with "# " but its first
(and only) block is a Paragraph, not a Heading: the heading regex
requires the text after the marker to run newline-free to the end of the
candidate. -/
theorem c5_counterexample :
    classify "# a\nb".data = [RawBlock.para "# a\nb".data] ∧
      (classify "# a\nb".data).map RawBlock.isHeading = [false] := by
  decide

/-- C6: the renderer is total — every string, including the empty string,
has a defined rendering, and the empty document renders to zero blocks. -/
theorem c6_total :
    (∀ s : List Char, ∃ out : List Block, renderContent s = out) ∧
      renderContent [] = [] := by
  refine ⟨fun s => ⟨_, rfl⟩, by decide⟩

/-- C7: rendering is deterministic — the same input always yields the same
sequence of blocks and, within each block, the same spans. -/
theorem c7_deterministic (s₁ s₂ : List Char) (h : s₁ = s₂) :
    renderContent s₁ = renderContent s₂ ∧ classify s₁ = classify s₂ := by
  subst h
  exact ⟨rfl, rfl⟩

/-- C7, witness at a concrete document. -/
theorem c7_deterministic_witness :
    renderContent "# Hello\n\nWorld".data = renderContent "# Hello\n\nWorld".data ∧
      classify "# Hello\n\nWorld".data = classify "# Hello\n\nWorld".data :=
  c7_deterministic _ _ rfl

/-- C9, counterexample: the empty string has no blank-line separator yet
the classifier produces zero blocks, not one. -/
theorem c9_counterexample :
    findSep ([] : List Char) = none ∧ (classify ([] : List Char)).length = 0 := by
  decide

/-- C9, amended: every string without a blank-line separator whose trimmed
text is nonempty yields exactly one block. -/
theorem c9_amended_theorem (s : List Char) (h1 : findSep s = none)
    (h2 : trimList s ≠ []) : (classify s).length = 1 := by
  obtain ⟨b, hb⟩ := classifyPara_isSome (trimList s) h2
  simp [classify, splitBlank_eq_single s h1, hb]

/-- C9, witness for the amended theorem at the document "hi". -/
theorem c9_amended_witness : (classify "hi".data).length = 1 :=
  c9_amended_theorem "hi".data (by decide) (by decide)

/-- C10, counterexample: the candidate "# \nfoo" is a multi-line candidate
whose trimmed text starts with '#' followed by whitespace, yet it is
classified as a Heading of level 1 with text "foo", not a Paragraph:
the `\s+` of the heading regex may swallow the newline. -/
theorem c10_counterexample :
    classifyPara (trimList "# \nfoo".data) = some (RawBlock.heading 1 "foo".data) ∧
      (classifyPara (trimList "# \nfoo".data)).map RawBlock.isPara = some false := by
  decide

/-! ### C4: one formatted span per match, in ascending start offset -/

/-- The span pushed for a match is never plain text. -/
theorem isFormatted_toSpan (m : IMatch) : isFormatted (toSpan m) = true := by
  cases m with
  | mk i L k cont u => cases k <;> rfl

/-- A plain span is not formatted. -/
theorem isFormatted_plain (t : List Char) : isFormatted (InlineSpan.plain t) = false := rfl

/-- The formatted spans of the parts walk are exactly the images of the
matches, one each, in list order. -/
theorem filter_buildParts (text : List Char) (ms : List IMatch) :
    ∀ cur, (buildParts text cur ms).filter isFormatted = ms.map toSpan := by
  induction ms with
  | nil =>
    intro cur
    by_cases h : cur < text.length <;>
      simp [buildParts, h, List.filter, isFormatted_plain]
  | cons m ms ih =>
    intro cur
    by_cases h : cur < m.index <;>
      simp [buildParts, h, List.filter_append, List.filter, isFormatted_plain,
        isFormatted_toSpan, ih]

/-- The parts walk over a nonempty match list yields a nonempty parts
array. -/
theorem buildParts_ne_nil (text : List Char) (cur : Nat) (m : IMatch)
    (ms : List IMatch) : buildParts text cur (m :: ms) ≠ [] := by
  intro h
  rcases List.append_eq_nil.mp h with ⟨-, h2⟩
  exact List.cons_ne_nil _ _ h2

/-- Membership in a stable insertion. -/
theorem mem_insertM (a x : IMatch) (l : List IMatch) :
    x ∈ insertM a l ↔ x = a ∨ x ∈ l := by
  induction l with
  | nil => simp [insertM]
  | cons b l ih =>
    by_cases h : a.index ≤ b.index
    · simp only [insertM, if_pos h, List.mem_cons]
    · simp only [insertM, if_neg h, List.mem_cons, ih]
      tauto

/-- Stable insertion preserves sortedness by start index. -/
theorem pairwise_insertM (a : IMatch) (l : List IMatch)
    (h : l.Pairwise (fun x y => x.index ≤ y.index)) :
    (insertM a l).Pairwise (fun x y => x.index ≤ y.index) := by
  induction l with
  | nil => simp [insertM]
  | cons b l ih =>
    rcases List.pairwise_cons.mp h with ⟨hb, hl⟩
    by_cases hab : a.index ≤ b.index
    · simp only [insertM, if_pos hab]
      refine List.Pairwise.cons ?_ h
      intro x hx
      rcases List.mem_cons.mp hx with rfl | hx
      · exact hab
      · exact le_trans hab (hb x hx)
    · simp only [insertM, if_neg hab]
      refine List.Pairwise.cons ?_ (ih hl)
      intro x hx
      rcases (mem_insertM a x l).mp hx with rfl | hx
      · exact Nat.le_of_not_le hab
      · exact hb x hx

/-- The sort of the pooled matches is sorted by start index. -/
theorem sortMatches_pairwise (l : List IMatch) :
    (sortMatches l).Pairwise (fun x y => x.index ≤ y.index) := by
  induction l with
  | nil => simp [sortMatches]
  | cons a l ih =>
    simp only [sortMatches]
    exact pairwise_insertM a (sortMatches l) ih

/-- C4: for every input text the inline formatter emits exactly one
formatted span per collected pattern match, namely the image of the
sorted pool of all matches (so overlapping matches are neither
deduplicated nor resolved by precedence), and the sorted pool is in
ascending order of match start offset. -/
theorem c4_theorem (text : List Char) :
    (renderInlineMarkdown text).filter isFormatted =
        (sortMatches (allMatches text)).map toSpan ∧
      (sortMatches (allMatches text)).Pairwise (fun a b => a.index ≤ b.index) := by
  refine ⟨?_, sortMatches_pairwise _⟩
  unfold renderInlineMarkdown
  cases hm : sortMatches (allMatches text) with
  | nil =>
    cases text with
    | nil => simp [buildParts, List.filter, isFormatted]
    | cons c rest => simp [buildParts, List.filter, isFormatted]
  | cons m ms =>
    have hie : (buildParts text 0 (m :: ms)).isEmpty = false := by
      cases hbp : buildParts text 0 (m :: ms) with
      | nil => exact absurd hbp (buildParts_ne_nil text 0 m ms)
      | cons x xs => rfl
    simp only [hie, Bool.false_eq_true, if_false]
    exact filter_buildParts text (m :: ms) 0

/-! ### C8: marker-free text yields a single plain span -/

/-- The scan loop finds nothing when the pattern fails at every suffix. -/
theorem scanAllF_eq_nil (attempt : List Char → Option MHit) :
    ∀ (fuel pos : Nat) (s : List Char),
      (∀ t : List Char, t <:+ s → attempt t = none) →
      scanAllF attempt fuel pos s = [] := by
  intro fuel
  induction fuel with
  | zero => intro pos s h; rfl
  | succ n ih =>
    intro pos s h
    cases s with
    | nil => rfl
    | cons c rest =>
      have h0 : attempt (c :: rest) = none := h _ (List.suffix_refl _)
      simp only [scanAllF, h0]
      exact ih (pos + 1) rest (fun t ht => h t (ht.trans (List.suffix_cons c rest)))

/-- The bold pattern cannot match a text free of `*` and `_`. -/
theorem boldHit_eq_none (t : List Char) (h1 : '*' ∉ t) (h2 : '_' ∉ t) :
    boldHit t = none := by
  cases t with
  | nil => rfl
  | cons a rest =>
    cases rest with
    | nil => rfl
    | cons b rest2 =>
      have ha1 : (a == '*') = false :=
        beq_eq_false_iff_ne.mpr (fun he => h1 (he ▸ List.mem_cons_self a (b :: rest2)))
      have ha2 : (a == '_') = false :=
        beq_eq_false_iff_ne.mpr (fun he => h2 (he ▸ List.mem_cons_self a (b :: rest2)))
      simp [boldHit, delim2At, ha1, ha2]

/-- The italic pattern cannot match a text free of `*` and `_`. -/
theorem italicHit_eq_none (t : List Char) (h1 : '*' ∉ t) (h2 : '_' ∉ t) :
    italicHit t = none := by
  cases t with
  | nil => rfl
  | cons a rest =>
    have ha1 : (a == '*') = false :=
      beq_eq_false_iff_ne.mpr (fun he => h1 (he ▸ List.mem_cons_self a rest))
    have ha2 : (a == '_') = false :=
      beq_eq_false_iff_ne.mpr (fun he => h2 (he ▸ List.mem_cons_self a rest))
    simp [italicHit, delim1At, ha1, ha2]

/-- The code pattern cannot match a text free of backticks. -/
theorem codeHit_eq_none (t : List Char) (h : btick ∉ t) : codeHit t = none := by
  cases t with
  | nil => rfl
  | cons a rest =>
    have ha : (a == btick) = false :=
      beq_eq_false_iff_ne.mpr (fun he => h (he ▸ List.mem_cons_self a rest))
    simp [codeHit, ha]

/-- C8: a text containing none of the inline marker characters `*`, `_`,
backtick, and in which the link pattern matches nowhere, is rendered as
exactly one plain-text span equal to the whole input. -/
theorem c8_theorem (text : List Char)
    (h1 : '*' ∉ text) (h2 : '_' ∉ text) (h3 : btick ∉ text)
    (h4 : scanP linkHit text = []) :
    renderInlineMarkdown text = [InlineSpan.plain text] := by
  have hb : scanP boldHit text = [] :=
    scanAllF_eq_nil boldHit _ 0 text (fun t ht =>
      boldHit_eq_none t (fun hm => h1 (ht.subset hm)) (fun hm => h2 (ht.subset hm)))
  have hi : scanP italicHit text = [] :=
    scanAllF_eq_nil italicHit _ 0 text (fun t ht =>
      italicHit_eq_none t (fun hm => h1 (ht.subset hm)) (fun hm => h2 (ht.subset hm)))
  have hc : scanP codeHit text = [] :=
    scanAllF_eq_nil codeHit _ 0 text (fun t ht =>
      codeHit_eq_none t (fun hm => h3 (ht.subset hm)))
  have hA : allMatches text = [] := by
    simp [allMatches, hb, hi, h4, hc]
  cases text with
  | nil => simp [renderInlineMarkdown, hA, sortMatches, buildParts]
  | cons c rest => simp [renderInlineMarkdown, hA, sortMatches, buildParts]

/-- C8, witness at a concrete marker-free text. -/
theorem c8_witness :
    renderInlineMarkdown "no markers here.".data =
      [InlineSpan.plain "no markers here.".data] :=
  c8_theorem "no markers here.".data (by decide) (by decide) (by decide) (by decide)

/-! ### Trimming and heading-match lemmas for C5 and C10 -/

/-- Right trim distributes over an append whose right part has a
non-whitespace character. -/
theorem rtrim_append (l₁ l₂ : List Char) (h : ∃ x ∈ l₂, isWs x = false) :
    rtrim (l₁ ++ l₂) = l₁ ++ rtrim l₂ := by
  have hne : (l₂.reverse.dropWhile isWs).isEmpty = false := by
    obtain ⟨x, hx, hw⟩ := h
    cases hdw : l₂.reverse.dropWhile isWs with
    | nil =>
      have hall := List.dropWhile_eq_nil_iff.mp hdw
      exact absurd (hall x (List.mem_reverse.mpr hx)) (by simp [hw])
    | cons y ys => rfl
  unfold rtrim
  rw [List.reverse_append, List.dropWhile_append, hne]
  simp [List.reverse_append]

/-- A list is its right trim followed by its trailing whitespace. -/
theorem rtrim_decomp (l : List Char) :
    rtrim l ++ (l.reverse.takeWhile isWs).reverse = l := by
  unfold rtrim
  rw [← List.reverse_append, List.takeWhile_append_dropWhile, List.reverse_reverse]

/-- A non-whitespace element survives the right trim. -/
theorem exists_nonWs_rtrim (l : List Char) (h : ∃ x ∈ l, isWs x = false) :
    ∃ x ∈ rtrim l, isWs x = false := by
  obtain ⟨x, hx, hw⟩ := h
  rw [← rtrim_decomp l] at hx
  rcases List.mem_append.mp hx with h1 | h2
  · exact ⟨x, h1, hw⟩
  · exact absurd (List.mem_takeWhile_imp (List.mem_reverse.mp h2)) (by simp [hw])

/-- The right trim is a sublist of the original. -/
theorem rtrim_sublist (l : List Char) : List.Sublist (rtrim l) l := by
  have h := (List.dropWhile_sublist (l := l.reverse) isWs).reverse
  simpa [rtrim] using h

/-- The leading `#` run of a `#`-headed candidate. -/
theorem takeWhile_hash_replicate (k : Nat) (c : Char) (rest : List Char)
    (hc : (c == '#') = false) :
    (List.replicate k '#' ++ c :: rest).takeWhile (fun x => x == '#') =
      List.replicate k '#' := by
  induction k with
  | zero => simp [List.takeWhile_cons, hc]
  | succ j ih => simp [List.replicate_succ, List.takeWhile_cons, ih]

/-- A nonempty `#` run makes the candidate nonempty. -/
theorem isEmpty_hash_replicate (k : Nat) (hk : 1 ≤ k) (l : List Char) :
    (List.replicate k '#' ++ l).isEmpty = false := by
  cases k with
  | zero => omega
  | succ j => simp [List.replicate_succ]

/-- A nonempty `#` run alone is nonempty. -/
theorem isEmpty_replicate_hash (k : Nat) (hk : 1 ≤ k) :
    (List.replicate k '#').isEmpty = false := by
  cases k with
  | zero => omega
  | succ j => simp [List.replicate_succ]

/-- The head of a `#`-headed candidate. -/
theorem head?_hash_replicate (k : Nat) (hk : 1 ≤ k) (l : List Char) :
    (List.replicate k '#' ++ l).head? = some '#' := by
  cases k with
  | zero => omega
  | succ j => simp [List.replicate_succ]

/-- A candidate whose head is not a list marker fails the `^[-*+]\s`
test. -/
theorem ulStart_eq_false_of_head (t : List Char) (a : Char) (h : t.head? = some a)
    (ha : isUlMarker a = false) : ulStart t = false := by
  cases t with
  | nil => rfl
  | cons x rest =>
    have hx : x = a := by simpa using h
    subst hx
    cases rest with
    | nil => rfl
    | cons b r2 => simp [ulStart, ha]

/-- A candidate whose head is not a digit fails the `^\d+\.\s` test. -/
theorem olStart_eq_false_of_head (t : List Char) (a : Char) (h : t.head? = some a)
    (ha : a.isDigit = false) : olStart t = false := by
  cases t with
  | nil => rfl
  | cons x rest =>
    have hx : x = a := by simpa using h
    subst hx
    simp [olStart, List.takeWhile_cons, ha]

/-- The greedy backtracking search succeeds without giving anything back
when the remainder after the maximal whitespace run is a nonempty
newline-free suffix. -/
theorem searchSplit_some (wRev r : List Char) (hw : wRev ≠ [])
    (h1 : r ≠ []) (h2 : r.all isDot = true) : searchSplit wRev r = some r := by
  obtain ⟨y, ys, hy⟩ := List.exists_cons_of_ne_nil hw
  subst hy
  have hie : r.isEmpty = false := by
    cases r with
    | nil => exact absurd rfl h1
    | cons a l => rfl
  simp [searchSplit, hie, h2]

/-- The backtracking search fails outright when a newline sits in the
remainder: every shorter whitespace run only grows the remainder. -/
theorem searchSplit_none (wRev : List Char) :
    ∀ r : List Char, '\n' ∈ r → searchSplit wRev r = none := by
  induction wRev with
  | nil => intro r hr; rfl
  | cons y ys ih =>
    intro r hr
    have hall : r.all isDot = false := by
      cases hA : r.all isDot
      · rfl
      · exact absurd (List.all_eq_true.mp hA '\n' hr) (by decide)
    simp only [searchSplit, hall, Bool.and_false, Bool.false_eq_true, if_false]
    exact ih (y :: r) (List.mem_cons_of_mem y hr)

/-- The heading regex matches a candidate of shape `#`-run, whitespace,
then a remainder whose part after the maximal whitespace run is nonempty
and newline-free; the heading text is that part. -/
theorem headingMatch_eq_some (k : Nat) (c : Char) (rest : List Char)
    (hk : 1 ≤ k) (hc : isWs c = true) (hch : (c == '#') = false)
    (hne : rest.dropWhile isWs ≠ [])
    (hdot : (rest.dropWhile isWs).all isDot = true) :
    headingMatch (List.replicate k '#' ++ c :: rest) =
      some (k, rest.dropWhile isWs) := by
  simp only [headingMatch]
  rw [takeWhile_hash_replicate k c rest hch, isEmpty_replicate_hash k hk]
  simp only [Bool.false_eq_true, if_false, List.length_replicate]
  rw [(List.drop_left' (by simp) : (List.replicate k '#' ++ c :: rest).drop k = c :: rest)]
  simp only [List.takeWhile_cons, List.dropWhile_cons, hc, if_true]
  rw [searchSplit_some _ _ (by simp) hne hdot]

/-- The heading regex fails on a candidate of shape `#`-run, whitespace,
then a remainder with a newline after its maximal whitespace run. -/
theorem headingMatch_eq_none (k : Nat) (c : Char) (rest : List Char)
    (hk : 1 ≤ k) (hc : isWs c = true) (hch : (c == '#') = false)
    (hnl : '\n' ∈ rest.dropWhile isWs) :
    headingMatch (List.replicate k '#' ++ c :: rest) = none := by
  simp only [headingMatch]
  rw [takeWhile_hash_replicate k c rest hch, isEmpty_replicate_hash k hk]
  simp only [Bool.false_eq_true, if_false, List.length_replicate]
  rw [(List.drop_left' (by simp) : (List.replicate k '#' ++ c :: rest).drop k = c :: rest)]
  simp only [List.takeWhile_cons, List.dropWhile_cons, hc, if_true]
  rw [searchSplit_none _ _ hnl]

/-! ### C5: heading classification of `#`-prefixed documents -/

/-- C5, amended: a document of the shape `#`-run (of length k at least 1),
then a whitespace character, then a remainder, which contains no line
terminator (LF, CR, LS, PS) and has a non-whitespace character after the
marker, yields as its first block a Heading of level min k 3 (so level
1, 2, 3 for the prefixes "# ", "## ", "### ", and level 3 for four or
more `#`).  The original claim fails for prefixed documents whose
heading text does not run terminator-free to the end of the candidate. -/
theorem c5_amended_theorem (k : Nat) (c : Char) (rest : List Char)
    (hk : 1 ≤ k) (hc : isWs c = true)
    (hnl : ∀ ch ∈ List.replicate k '#' ++ c :: rest, isDot ch = true)
    (hnw : ∃ ch ∈ rest, isWs ch = false) :
    ((classify (List.replicate k '#' ++ c :: rest)).head?.bind
        RawBlock.headingLevel?) = some (min k 3) := by
  have hch : (c == '#') = false := by
    refine beq_eq_false_iff_ne.mpr (fun he => ?_)
    rw [he] at hc
    exact absurd hc (by decide)
  have hnl0 : '\n' ∉ List.replicate k '#' ++ c :: rest := fun hm =>
    absurd (hnl _ hm) (by decide)
  have hsplit := splitBlank_eq_single _ (findSep_eq_none _ hnl0)
  have h9 : isWs '#' = false := by decide
  have hlt : ltrim (List.replicate k '#' ++ c :: rest) =
      List.replicate k '#' ++ c :: rest := by
    cases k with
    | zero => omega
    | succ j => simp [ltrim, List.replicate_succ, List.dropWhile_cons, h9]
  have htrim : trimList (List.replicate k '#' ++ c :: rest) =
      List.replicate k '#' ++ c :: rtrim rest := by
    unfold trimList
    rw [hlt]
    have h2 : ∃ x ∈ c :: rest, isWs x = false := by
      obtain ⟨x, hx, hw⟩ := hnw
      exact ⟨x, List.mem_cons_of_mem c hx, hw⟩
    rw [rtrim_append _ _ h2]
    have h3 : rtrim (c :: rest) = c :: rtrim rest := by
      simpa using rtrim_append [c] rest hnw
    rw [h3]
  have hrne : (rtrim rest).dropWhile isWs ≠ [] := by
    intro h0
    obtain ⟨x, hx, hw⟩ := exists_nonWs_rtrim rest hnw
    exact absurd (List.dropWhile_eq_nil_iff.mp h0 x hx) (by simp [hw])
  have hrdot : ((rtrim rest).dropWhile isWs).all isDot = true := by
    rw [List.all_eq_true]
    intro x hx
    have hx1 : x ∈ rtrim rest := (List.dropWhile_sublist isWs).subset hx
    have hx2 : x ∈ rest := (rtrim_sublist rest).subset hx1
    exact hnl x (List.mem_append_right _ (List.mem_cons_of_mem c hx2))
  have hM : headingMatch (trimList (List.replicate k '#' ++ c :: rest)) =
      some (k, (rtrim rest).dropWhile isWs) := by
    rw [htrim]
    exact headingMatch_eq_some k c (rtrim rest) hk hc hch hrne hrdot
  have hniE : (trimList (List.replicate k '#' ++ c :: rest)).isEmpty = false := by
    rw [htrim]
    exact isEmpty_hash_replicate k hk _
  have hhd : (trimList (List.replicate k '#' ++ c :: rest)).head? = some '#' := by
    rw [htrim]
    exact head?_hash_replicate k hk _
  have hcp : classifyPara (trimList (List.replicate k '#' ++ c :: rest)) =
      some (RawBlock.heading (min k 3) ((rtrim rest).dropWhile isWs)) := by
    unfold classifyPara
    rw [hniE]
    simp only [Bool.false_eq_true, if_false]
    rw [if_pos hhd, hM]
  unfold classify
  rw [hsplit]
  simp [hcp, RawBlock.headingLevel?]

/-- C5, witness for the amended theorem at the document "## Hi". -/
theorem c5_amended_witness :
    ((classify (List.replicate 2 '#' ++ ' ' :: "Hi".data)).head?.bind
        RawBlock.headingLevel?) = some (min 2 3) :=
  c5_amended_theorem 2 ' ' "Hi".data (by decide) (by decide) (by decide)
    ⟨ 'H', by decide, by decide⟩

/-! ### C10: multi-line heading candidates -/

/-- C10, amended: a candidate whose trimmed text starts with a `#`-run
followed by a whitespace character is classified as a Paragraph holding
the whole trimmed candidate text whenever a newline occurs after the
first non-whitespace character following the marker; when every newline
of the candidate lies inside the whitespace run directly after the
marker, the candidate is still classified as a Heading, so heading
classification is not restricted to single-line candidates. -/
theorem c10_amended_theorem (c : List Char) (n : Nat) (w : Char) (rest : List Char)
    (ht : trimList c = List.replicate n '#' ++ w :: rest)
    (hn : 1 ≤ n) (hw : isWs w = true)
    (hnl : '\n' ∈ rest.dropWhile isWs) :
    classifyPara (trimList c) = some (RawBlock.para (trimList c)) := by
  rw [ht]
  have hwh : (w == '#') = false := by
    refine beq_eq_false_iff_ne.mpr (fun he => ?_)
    rw [he] at hw
    exact absurd hw (by decide)
  have hM : headingMatch (List.replicate n '#' ++ w :: rest) = none :=
    headingMatch_eq_none n w rest hn hw hwh hnl
  have hniE : (List.replicate n '#' ++ w :: rest).isEmpty = false :=
    isEmpty_hash_replicate n hn _
  have hhd : (List.replicate n '#' ++ w :: rest).head? = some '#' :=
    head?_hash_replicate n hn _
  have hul : ulStart (List.replicate n '#' ++ w :: rest) = false :=
    ulStart_eq_false_of_head _ '#' hhd (by decide)
  have hol : olStart (List.replicate n '#' ++ w :: rest) = false :=
    olStart_eq_false_of_head _ '#' hhd (by decide)
  unfold classifyPara
  rw [hniE]
  simp only [Bool.false_eq_true, if_false]
  rw [if_pos hhd, hM]
  simp [hul, hol]

/-- C10, witness for the amended theorem at the candidate "# a\nb". -/
theorem c10_amended_witness :
    classifyPara (trimList "# a\nb".data) =
      some (RawBlock.para (trimList "# a\nb".data)) :=
  c10_amended_theorem "# a\nb".data 1 ' ' "a\nb".data (by decide) (by decide)
    (by decide) (by decide)
